import Mathlib

/-!
Verification of the py-scrcpy-client control codec, gesture synthesis and
session state against its specification.

The embedding translates `scrcpy/calculate.py`, `scrcpy/control.py` and the
resolution handling of `scrcpy/core.py` into Lean.  Python floats are
modelled as exact rationals where the source's float operations are exact
in binary64 (multiplication by a power of two, division of a small integer
by 16), so there the rational semantics agrees with the float semantics on
the inputs the theorems quantify over; the one place where float rounding
is observable — the position accumulation of `swipe` — is modelled as a
relation over an arbitrary binary64 rounding function (`FloatRound`), so
the theorems about it hold for every outcome the program can produce;
Python's
unbounded `int` is modelled as `Int`; `struct.pack` is modelled as a
range-checked big-endian byte serializer, since `struct.pack` raises
`struct.error` on an out-of-range field; wire payloads are lists of byte
values (`Nat` below 256).
-/

namespace Scrcpy

/-- Errors a control call can signal, mirroring the Python exceptions:
`ValueError("Resolution is not known yet")`, the `ValueError` for an
over-long clipboard text, the `AssertionError` raised by `calculate.py`,
`struct.error` for an out-of-range pack field, and `ZeroDivisionError`. -/
inductive ScrErr where
  | resolutionUnknown
  | textTooLong
  | assertFail
  | packRange
  | zeroDiv
deriving DecidableEq, Repr

/-- Python `int(q)` on a real value: truncation toward zero. -/
def pyInt (q : ℚ) : ℤ := if q < 0 then ⌈q⌉ else ⌊q⌋

/-- Big-endian bytes of `n`, `k` bytes wide (callers check the range). -/
def beBytes (k n : Nat) : List Nat :=
  (List.range k).map fun i => n / 256 ^ (k - 1 - i) % 256

/-- Big-endian value of a byte list (inverse of `beBytes` on its range). -/
def beVal (l : List Nat) : Nat := l.foldl (fun a b => a * 256 + b) 0

/-- Model of `struct.pack` for one unsigned big-endian field of `k` bytes
(formats `B`, `H`): range-checked, `struct.error` outside `[0, 2^(8k))`. -/
def packUInt (k : Nat) (v : ℤ) : Except ScrErr (List Nat) :=
  if 0 ≤ v ∧ v < 2 ^ (8 * k) then .ok (beBytes k v.toNat) else .error .packRange

/-- Model of `struct.pack` for one signed big-endian field of `k` bytes
(formats `i`, `q`): range-checked, two's complement. -/
def packSInt (k : Nat) (v : ℤ) : Except ScrErr (List Nat) :=
  if -(2 ^ (8 * k - 1)) ≤ v ∧ v < 2 ^ (8 * k - 1) then
    .ok (beBytes k (v % 2 ^ (8 * k)).toNat)
  else .error .packRange

/-- Signed big-endian read of a 4-byte field (two's complement). -/
def sVal32 (l : List Nat) : ℤ :=
  if beVal l < 2 ^ 31 then (beVal l : ℤ) else (beVal l : ℤ) - 2 ^ 32

/-- Source `calculate.float_to_i16`: assert `-1.0 <= value <= 1.0`, then
`min(max(int(value * 0x8000), -0x8000), 0x7FFF)`. -/
def float_to_i16 (value : ℚ) : Except ScrErr ℤ :=
  if -1 ≤ value ∧ value ≤ 1 then
    .ok (min (max (pyInt (value * 0x8000)) (-0x8000)) 0x7FFF)
  else .error .assertFail

/-- Source `calculate.float_to_u16`: assert `0.0 <= value <= 1.0`, then
`min(int(value * 0x10000), 0xFFFF)`. -/
def float_to_u16 (value : ℚ) : Except ScrErr ℤ :=
  if 0 ≤ value ∧ value ≤ 1 then
    .ok (min (pyInt (value * 0x10000)) 0xFFFF)
  else .error .assertFail

/-- The spec's clamp: `clamp(v, lo, hi)`. -/
def clampSpec (v lo hi : ℤ) : ℤ := max lo (min v hi)

/-- The spec's signed fixed-point rule, stated in the spec's own words:
`clamp(round_toward_zero(value * 32768), -32768, 32767)`. -/
def fixed16SignedSpec (value : ℚ) : ℤ :=
  clampSpec (pyInt (value * 32768)) (-32768) 32767

/-- The spec's unsigned fixed-point rule, stated in the spec's own words:
`clamp(round_toward_zero(value * 65536), 0, 65535)`. -/
def fixed16UnsignedSpec (value : ℚ) : ℤ :=
  clampSpec (pyInt (value * 65536)) 0 65535

/-- Modelled from the spec: the `const` module is not under `src/`; the spec
fixes no numeric tag values ("a one-byte command-type tag"), so the values
below follow the upstream scrcpy protocol order.  No theorem in this file
depends on the numeric value of any of these constants. -/
def TYPE_INJECT_KEYCODE : Nat := 0

/-- Modelled from the spec: see `TYPE_INJECT_KEYCODE`. -/
def TYPE_INJECT_TEXT : Nat := 1

/-- Modelled from the spec: see `TYPE_INJECT_KEYCODE`. -/
def TYPE_INJECT_TOUCH_EVENT : Nat := 2

/-- Modelled from the spec: see `TYPE_INJECT_KEYCODE`. -/
def TYPE_INJECT_SCROLL_EVENT : Nat := 3

/-- Modelled from the spec: see `TYPE_INJECT_KEYCODE`. -/
def TYPE_BACK_OR_SCREEN_ON : Nat := 4

/-- Modelled from the spec: see `TYPE_INJECT_KEYCODE`. -/
def TYPE_EXPAND_NOTIFICATION_PANEL : Nat := 5

/-- Modelled from the spec: see `TYPE_INJECT_KEYCODE`. -/
def TYPE_EXPAND_SETTINGS_PANEL : Nat := 6

/-- Modelled from the spec: see `TYPE_INJECT_KEYCODE`. -/
def TYPE_COLLAPSE_PANELS : Nat := 7

/-- Modelled from the spec: see `TYPE_INJECT_KEYCODE`. -/
def TYPE_SET_CLIPBOARD : Nat := 9

/-- Modelled from the spec: see `TYPE_INJECT_KEYCODE`. -/
def TYPE_SET_DISPLAY_POWER : Nat := 10

/-- Modelled from the spec: see `TYPE_INJECT_KEYCODE`. -/
def TYPE_ROTATE_DEVICE : Nat := 11

/-- Modelled from the spec: "a reserved sentinel value denotes the synthetic
mouse pointer"; upstream scrcpy uses `-1` as that 64-bit signed sentinel. -/
def SC_POINTER_ID_MOUSE : ℤ := -1

/-- Modelled from the spec: "a single primary button constant" used for both
button-mask fields; upstream Android uses `1`. -/
def AMOTION_EVENT_BUTTON_PRIMARY : ℤ := 1

/-- Value of `const.ACTION_DOWN` (Android `AKEY_EVENT_ACTION_DOWN`). -/
def ACTION_DOWN : ℤ := 0

/-- Value of `const.ACTION_UP`. -/
def ACTION_UP : ℤ := 1

/-- Value of `const.ACTION_MOVE`. -/
def ACTION_MOVE : ℤ := 2

/-- The per-session state the claims are about: `Client.resolution`
(set by the stream loop, read by `ControlSender`) and
`ControlSender._clipboard_sequence`. -/
structure SessionState where
  resolution : Option (Nat × Nat)
  clipboardSequence : ℤ
deriving DecidableEq, Repr

/-- A fresh session: `Client.__init__` sets `resolution = None` and
`ControlSender.__init__` sets `_clipboard_sequence = 0`. -/
def initSession : SessionState := ⟨none, 0⟩

/-- Source `ControlSender.keycode`: `struct.pack(">Biii", action, keycode, repeat,
meta)` behind the `@inject(const.TYPE_INJECT_KEYCODE)` tag prefix. -/
def keycode (kc : ℤ) (action : ℤ) (rep : ℤ) (meta : ℤ) :
    Except ScrErr (List Nat) := do
  let b1 ← packUInt 1 action
  let b2 ← packSInt 4 kc
  let b3 ← packSInt 4 rep
  let b4 ← packSInt 4 meta
  .ok (TYPE_INJECT_KEYCODE :: (b1 ++ b2 ++ b3 ++ b4))

/-- UTF-8 encoding of one Unicode code point (the byte sequence Python's
`str.encode("utf-8")` produces for a scalar value). -/
def utf8EncodeCp (n : Nat) : List Nat :=
  if n < 0x80 then [n]
  else if n < 0x800 then [0xC0 + n / 64, 0x80 + n % 64]
  else if n < 0x10000 then
    [0xE0 + n / 4096, 0x80 + n / 64 % 64, 0x80 + n % 64]
  else
    [0xF0 + n / 262144, 0x80 + n / 4096 % 64, 0x80 + n / 64 % 64,
      0x80 + n % 64]

/-- UTF-8 encoding of a sequence of code points (`str.encode("utf-8")`). -/
def utf8Encode (cps : List Nat) : List Nat := cps.flatMap utf8EncodeCp

/-- The UTF-8 byte buffer of a Python string. -/
def utf8Bytes (s : String) : List Nat := utf8Encode (s.data.map Char.toNat)

/-- Source `ControlSender.text`: `struct.pack(">i", len(buffer)) + buffer` behind
the `@inject(const.TYPE_INJECT_TEXT)` tag prefix. -/
def text (s : String) : Except ScrErr (List Nat) := do
  let buffer := utf8Bytes s
  let b1 ← packSInt 4 buffer.length
  .ok (TYPE_INJECT_TEXT :: (b1 ++ buffer))

/-- Source `ControlSender.touch`: fails if `resolution` is unknown, clamps `x, y`
with `min(max(int(coord), 0), max_coord)`, then packs
`">BqiiHHHii"` with `float_to_u16(int(pressure))` as the pressure field and
the primary-button constant in both button-mask fields, behind the
`@inject(const.TYPE_INJECT_TOUCH_EVENT)` tag prefix. -/
def touch (st : SessionState) (x y : ℤ) (action : ℤ) (touch_id : ℤ)
    (pressure : ℚ) : Except ScrErr (List Nat) :=
  match st.resolution with
  | none => .error .resolutionUnknown
  | some (w, h) => do
    let maxX : ℤ := w
    let maxY : ℤ := h
    let cx := min (max x 0) maxX
    let cy := min (max y 0) maxY
    let p ← float_to_u16 ((pyInt pressure : ℤ) : ℚ)
    let b1 ← packUInt 1 action
    let b2 ← packSInt 8 touch_id
    let b3 ← packSInt 4 cx
    let b4 ← packSInt 4 cy
    let b5 ← packUInt 2 maxX
    let b6 ← packUInt 2 maxY
    let b7 ← packUInt 2 p
    let b8 ← packSInt 4 AMOTION_EVENT_BUTTON_PRIMARY
    .ok (TYPE_INJECT_TOUCH_EVENT ::
      (b1 ++ b2 ++ b3 ++ b4 ++ b5 ++ b6 ++ b7 ++ b8 ++ b8))

/-- Source `ControlSender.scroll`: fails if `resolution` is unknown, clamps `x, y`,
converts `h / 16.0` and `v / 16.0` with `float_to_i16`, then packs
`">iiHHHHi"` — note the two delta fields use the unsigned format `H` —
behind the `@inject(const.TYPE_INJECT_SCROLL_EVENT)` tag prefix. -/
def scroll (st : SessionState) (x y : ℤ) (hd vd : ℤ) :
    Except ScrErr (List Nat) :=
  match st.resolution with
  | none => .error .resolutionUnknown
  | some (w, h) => do
    let maxX : ℤ := w
    let maxY : ℤ := h
    let cx := min (max x 0) maxX
    let cy := min (max y 0) maxY
    let hv ← float_to_i16 ((hd : ℚ) / 16)
    let vv ← float_to_i16 ((vd : ℚ) / 16)
    let b1 ← packSInt 4 cx
    let b2 ← packSInt 4 cy
    let b3 ← packUInt 2 maxX
    let b4 ← packUInt 2 maxY
    let b5 ← packUInt 2 hv
    let b6 ← packUInt 2 vv
    let b7 ← packSInt 4 AMOTION_EVENT_BUTTON_PRIMARY
    .ok (TYPE_INJECT_SCROLL_EVENT :: (b1 ++ b2 ++ b3 ++ b4 ++ b5 ++ b6 ++ b7))

/-- Source `ControlSender.expand_notification_panel`: empty payload. -/
def expand_notification_panel : Except ScrErr (List Nat) :=
  .ok [TYPE_EXPAND_NOTIFICATION_PANEL]

/-- Source `ControlSender.expand_settings_panel`: empty payload. -/
def expand_settings_panel : Except ScrErr (List Nat) :=
  .ok [TYPE_EXPAND_SETTINGS_PANEL]

/-- Source `ControlSender.collapse_panels`: empty payload. -/
def collapse_panels : Except ScrErr (List Nat) :=
  .ok [TYPE_COLLAPSE_PANELS]

/-- Source `ControlSender.set_clipboard`: encodes the text, raises `ValueError` if
the UTF-8 buffer exceeds the maximum byte length (before touching the
counter), otherwise increments `_clipboard_sequence` and packs
`">q?i" + buffer` behind the `@inject(const.TYPE_SET_CLIPBOARD)` tag.
`maxLen` stands for `const.SC_CONTROL_MSG_INJECT_TEXT_MAX_LENGTH`, whose
numeric value is not under `src/`; every theorem quantifies over it.
Returns the state after the call together with the call's result. -/
def set_clipboard (st : SessionState) (s : String) (paste : Bool)
    (maxLen : Nat) : SessionState × Except ScrErr (List Nat) :=
  let buffer := utf8Bytes s
  if buffer.length > maxLen then (st, .error .textTooLong)
  else
    let st' := { st with clipboardSequence := st.clipboardSequence + 1 }
    let r : Except ScrErr (List Nat) := do
      let b1 ← packSInt 8 st'.clipboardSequence
      let b2 := [if paste then 1 else 0]
      let b3 ← packSInt 4 buffer.length
      .ok (TYPE_SET_CLIPBOARD :: (b1 ++ b2 ++ b3 ++ buffer))
    (st', r)

/-- Runs a list of `set_clipboard` calls in order, threading the session
state, and collects each call's result. -/
def clipRun (st : SessionState) (maxLen : Nat) :
    List (String × Bool) → SessionState × List (Except ScrErr (List Nat))
  | [] => (st, [])
  | (s, p) :: rest =>
    let r := set_clipboard st s p maxLen
    let next := clipRun r.1 maxLen rest
    (next.1, r.2 :: next.2)

/-- The sequence-number field of a `set_clipboard` result: bytes 1–8 of the
package (after the one-byte tag), when the call succeeded. -/
def seqFieldOf (r : Except ScrErr (List Nat)) : Option (List Nat) :=
  match r with
  | .ok pkg => some ((pkg.drop 1).take 8)
  | .error _ => none

/-- The width and height of a decoded video frame, as reported by the
external codec (`frame.width`, `frame.height` in `Client.__stream_loop`). -/
structure FrameInfo where
  width : Nat
  height : Nat
deriving DecidableEq, Repr

/-- One decoded frame passing through `Client.__stream_loop`:
`if not self.resolution: self.resolution = (frame.width, frame.height)`.
(`self.resolution` is `None` or a pair; a pair is always truthy in Python,
so the guard tests exactly for `None`.) -/
def ingestFrame (r : Option (Nat × Nat)) (f : FrameInfo) : Option (Nat × Nat) :=
  match r with
  | none => some (f.width, f.height)
  | some wh => some wh

/-- The resolution after the stream loop has processed a sequence of
decoded frames. -/
def ingestFrames (r : Option (Nat × Nat)) (fs : List FrameInfo) :
    Option (Nat × Nat) :=
  fs.foldl ingestFrame r

/-- Source `Client.start` resets `self.resolution = None` before streaming. -/
def startResolution : Option (Nat × Nat) := none

/-- The step count of `ControlSender.swipe`:
`max(int(hypotenuse / move_step_length + 0.5), 1)` where `hypotenuse` is the
Euclidean distance between the clamped endpoints and `d2` its square.
For a nonnegative real `x` and positive integer `L`,
`int(x / L + 0.5) = ⌊(2x + L) / (2L)⌋ = ⌊(⌊2x⌋ + L) / (2L)⌋`, and
`⌊2 * sqrt d2⌋ = Nat.sqrt (4 * d2)`, giving the exact integer form below.
The source evaluates `math.sqrt(d2) / L + 0.5` in binary64; that agrees
with the exact real value's truncation for every geometry this client can
produce: either `4 * d2 = (L * (2m - 1))^2` for some `m`, in which case
every binary64 step (square root of a representable perfect square,
division by `L` with a half-integer result, adding `0.5`) is exact, or
`|4 * d2 - (L * (2m - 1))^2| ≥ 1` for every `m`, which keeps
`sqrt d2 / L + 0.5` at distance at least `1 / (8 * L^2 * m)` from every
integer `m` — for `d2 < 2^34` (coordinates are 16-bit) that distance
exceeds the at most three rounding errors of the binary64 evaluation by
orders of magnitude. -/
def stepsNum (d2 : Nat) (L : Nat) : Nat :=
  max ((Nat.sqrt (4 * d2) + L) / (2 * L)) 1

/-- The only property of IEEE-754 binary64 rounding this development
relies on: integers of magnitude below `2^53` are exactly representable,
so a rounding function returns them unchanged.  The binary64
round-to-nearest function satisfies this, so every behaviour of the real
program is admitted by any model that quantifies over `FloatRound`
functions. -/
def FloatRound (fl : ℚ → ℚ) : Prop :=
  ∀ m : ℤ, -(2 ^ 53) < m → m < 2 ^ 53 → fl ((m : ℚ)) = ((m : ℚ))

/-- One per-axis step of `ControlSender.swipe`:
`step = (end - start) / steps_num`, an exact integer quotient rounded to
binary64 by `fl`. -/
def swipeStep (fl : ℚ → ℚ) (c e : ℤ) (n : ℕ) : ℚ :=
  fl (((e - c : ℤ) : ℚ) / (n : ℚ))

/-- The swipe accumulator after `k` iterations of `next += step`
(`next_x += step_x` in the source), starting at `float(start)`; every
addition goes through the rounding `fl`. -/
def swipeAccum (fl : ℚ → ℚ) (c e : ℤ) (n : ℕ) : ℕ → ℚ
  | 0 => (c : ℚ)
  | k + 1 => fl (swipeAccum fl c e n k + swipeStep fl c e n)

/-- The ordered `(action, x, y)` arguments of the `touch` calls one
`swipe` run makes under the rounding model `fl`: a touch-down at the
clamped start, `steps_num - 1` touch-moves at the truncated accumulator
positions, and a final touch-up at the truncated position after one more
increment (`int(next_x)` is truncation toward zero, `pyInt`). -/
def swipeEventsWith (fl : ℚ → ℚ) (sx sy ex ey : ℤ) (n : ℕ) :
    List (ℤ × ℤ × ℤ) :=
  (ACTION_DOWN, sx, sy) ::
    ((List.range (n - 1)).map fun (i : ℕ) =>
      (ACTION_MOVE, pyInt (swipeAccum fl sx ex n (i + 1)),
        pyInt (swipeAccum fl sy ey n (i + 1)))) ++
    [(ACTION_UP, pyInt (swipeAccum fl sx ex n n),
      pyInt (swipeAccum fl sy ey n n))]

/-- Source `ControlSender.swipe`, as the relation between the call's
arguments and its outcome.  The position accumulation runs in binary64,
whose rounding cannot be translated into exact arithmetic, so the model
quantifies over the rounding function: an outcome is admissible iff it is
produced by some `FloatRound` rounding, and the IEEE round-to-nearest is
one such function, so the real program's outcome is always admissible.
(Theorems below therefore establish their properties for every admissible
outcome.)  Fails like the source when `resolution` is unknown; a zero
step length raises `ZeroDivisionError` in the source (after the initial
touch-down has already been sent) — the model records just the error, and
no claim concerns that case. -/
def swipe (st : SessionState) (start_x start_y end_x end_y : ℤ) (L : Nat)
    (r : Except ScrErr (List (ℤ × ℤ × ℤ))) : Prop :=
  match st.resolution with
  | none => r = .error .resolutionUnknown
  | some (w, h) =>
    if L = 0 then r = .error .zeroDiv
    else
      let maxX : ℤ := w
      let maxY : ℤ := h
      let sx := min (max start_x 0) maxX
      let sy := min (max start_y 0) maxY
      let ex := min (max end_x 0) maxX
      let ey := min (max end_y 0) maxY
      let d2 := ((ex - sx) ^ 2 + (ey - sy) ^ 2).toNat
      let n := stepsNum d2 L
      ∃ fl : ℚ → ℚ, FloatRound fl ∧ r = .ok (swipeEventsWith fl sx sy ex ey n)

/-- Reads one UTF-8-encoded code point from the front of a byte list,
returning it and the remaining bytes (the inverse of `utf8EncodeCp`). -/
def utf8DecodeOne (l : List Nat) : Option (Nat × List Nat) :=
  match l with
  | [] => none
  | b0 :: bs =>
    if b0 < 0x80 then some (b0, bs)
    else if b0 < 0xC0 then none
    else if b0 < 0xE0 then
      match bs with
      | b1 :: bs1 =>
        if 0x80 ≤ b1 ∧ b1 < 0xC0 then
          some ((b0 - 0xC0) * 64 + (b1 - 0x80), bs1)
        else none
      | _ => none
    else if b0 < 0xF0 then
      match bs with
      | b1 :: b2 :: bs2 =>
        if (0x80 ≤ b1 ∧ b1 < 0xC0) ∧ (0x80 ≤ b2 ∧ b2 < 0xC0) then
          some ((b0 - 0xE0) * 4096 + (b1 - 0x80) * 64 + (b2 - 0x80), bs2)
        else none
      | _ => none
    else if b0 < 0xF8 then
      match bs with
      | b1 :: b2 :: b3 :: bs3 =>
        if (0x80 ≤ b1 ∧ b1 < 0xC0) ∧ (0x80 ≤ b2 ∧ b2 < 0xC0) ∧
            (0x80 ≤ b3 ∧ b3 < 0xC0) then
          some ((b0 - 0xF0) * 262144 + (b1 - 0x80) * 4096 +
            (b2 - 0x80) * 64 + (b3 - 0x80), bs3)
        else none
      | _ => none
    else none

/-- Decodes a whole byte list as UTF-8 code points (`bytes.decode("utf-8")`
restricted to the shapes `utf8EncodeCp` emits), with fuel bounded by the
list length — each code point consumes at least one byte. -/
def utf8DecodeAux : Nat → List Nat → Option (List Nat)
  | _, [] => some []
  | 0, _ :: _ => none
  | fuel + 1, l =>
    match utf8DecodeOne l with
    | some (n, rest) => (utf8DecodeAux fuel rest).map (n :: ·)
    | none => none

/-- Model of `bytes.decode("utf-8")` at the code-point level. -/
def utf8Decode (l : List Nat) : Option (List Nat) := utf8DecodeAux l.length l

/-- The length-prefixed UTF-8 body `ControlSender.text` (and the clipboard
payload) produce: `struct.pack(">i", len(buffer)) + buffer`. -/
def encodeBody (s : String) : Except ScrErr (List Nat) := do
  let buffer := utf8Bytes s
  let b1 ← packSInt 4 buffer.length
  .ok (b1 ++ buffer)

/-- The paired decode from `ControlSender.get_clipboard` (after the tag
byte): `struct.unpack(">i", s.recv(4))` for the length, then — unless the
length is zero, in which case no further bytes are read —
`s.recv(length).decode("utf-8")`.  Returns the decoded string and the bytes
left unread. -/
def decodeBody (l : List Nat) : Option (String × List Nat) :=
  match l with
  | b0 :: b1 :: b2 :: b3 :: rest =>
    let length := sVal32 [b0, b1, b2, b3]
    if length = 0 then some ("", rest)
    else if 0 < length ∧ length.toNat ≤ rest.length then
      match utf8Decode (rest.take length.toNat) with
      | some cps => some ((cps.map Char.ofNat).asString, rest.drop length.toNat)
      | none => none
    else none
  | _ => none

/-- Decidable equality on `Except`, needed to evaluate encoder results. -/
instance {ε α : Type} [DecidableEq ε] [DecidableEq α] :
    DecidableEq (Except ε α) := fun a b =>
  match a, b with
  | .ok x, .ok y =>
    match decEq x y with
    | isTrue hxy => isTrue (hxy ▸ rfl)
    | isFalse hxy => isFalse fun hh => hxy (Except.ok.inj hh)
  | .error x, .error y =>
    match decEq x y with
    | isTrue hxy => isTrue (hxy ▸ rfl)
    | isFalse hxy => isFalse fun hh => hxy (Except.error.inj hh)
  | .ok _, .error _ => isFalse fun hh => Except.noConfusion hh
  | .error _, .ok _ => isFalse fun hh => Except.noConfusion hh

/-- Whether a control call succeeded. -/
def isOk {α : Type} (r : Except ScrErr α) : Bool :=
  match r with
  | .ok _ => true
  | .error _ => false

section ByteLemmas

theorem beBytes_succ (k n : Nat) :
    beBytes (k + 1) n = n / 256 ^ k % 256 :: beBytes k n := by
  simp only [beBytes, List.range_succ_eq_map, List.map_cons, List.map_map]
  refine List.cons_eq_cons.mpr ⟨by norm_num, ?_⟩
  apply List.map_congr_left
  intro i _
  have he : k - (i + 1) = k - 1 - i := by omega
  simp [Function.comp_apply, Nat.succ_eq_add_one, he]

theorem length_beBytes (k n : Nat) : (beBytes k n).length = k := by
  simp [beBytes]

theorem beVal_from (l : List Nat) (a : Nat) :
    l.foldl (fun x b => x * 256 + b) a = a * 256 ^ l.length + beVal l := by
  induction l generalizing a with
  | nil => simp [beVal]
  | cons b t ih =>
    simp only [List.foldl_cons, beVal, List.length_cons]
    rw [ih (a * 256 + b), ih (0 * 256 + b)]
    ring

theorem beVal_cons (b : Nat) (l : List Nat) :
    beVal (b :: l) = b * 256 ^ l.length + beVal l := by
  show (b :: l).foldl (fun x c => x * 256 + c) 0 = _
  rw [List.foldl_cons]
  simpa using beVal_from l (0 * 256 + b)

theorem beVal_beBytes (k n : Nat) : beVal (beBytes k n) = n % 256 ^ k := by
  induction k with
  | zero => simp [beBytes, beVal, Nat.mod_one]
  | succ k ih =>
    rw [beBytes_succ, beVal_cons, length_beBytes, ih]
    have hpow : (256 : ℕ) ^ (k + 1) = 256 ^ k * 256 := by ring
    rw [hpow, Nat.mod_mul]
    ring

theorem beVal_lt (k n : Nat) : beVal (beBytes k n) < 256 ^ k := by
  rw [beVal_beBytes]
  exact Nat.mod_lt _ (Nat.pos_pow_of_pos k (by norm_num))

/-- Lemma: `packSInt` round trip: a 4-byte signed field reads back as itself. -/
theorem sVal32_roundtrip (v : ℤ) (h1 : -(2 ^ 31) ≤ v) (h2 : v < 2 ^ 31) :
    packSInt 4 v = .ok (beBytes 4 (v % 2 ^ 32).toNat) ∧
      sVal32 (beBytes 4 (v % 2 ^ 32).toNat) = v := by
  constructor
  · unfold packSInt
    rw [if_pos]
    exact ⟨by norm_num at h1 ⊢; omega, by norm_num at h2 ⊢; omega⟩
  · unfold sVal32
    rw [beVal_beBytes]
    have hlt : ((v % 2 ^ 32).toNat : ℕ) < 2 ^ 32 := by omega
    have hmod : (v % 2 ^ 32).toNat % 256 ^ 4 = (v % 2 ^ 32).toNat := by
      apply Nat.mod_eq_of_lt
      norm_num at hlt ⊢
      omega
    rw [hmod]
    split
    · next hsmall =>
      norm_num at hsmall ⊢
      omega
    · next hbig =>
      norm_num at hbig ⊢
      omega

end ByteLemmas

section PyIntLemmas

theorem pyInt_intCast (n : ℤ) : pyInt (n : ℚ) = n := by
  unfold pyInt
  split <;> simp

theorem pyInt_nonneg {q : ℚ} (h : 0 ≤ q) : 0 ≤ pyInt q := by
  unfold pyInt
  rw [if_neg (by exact not_lt.mpr h)]
  exact Int.floor_nonneg.mpr h

theorem pyInt_le {q : ℚ} {n : ℤ} (h : q ≤ (n : ℚ)) : pyInt q ≤ n := by
  unfold pyInt
  split
  · exact Int.ceil_le.mpr h
  · calc ⌊q⌋ ≤ ⌊(n : ℚ)⌋ := Int.floor_le_floor h
    _ = n := Int.floor_intCast n

theorem le_pyInt {q : ℚ} {n : ℤ} (h : (n : ℚ) ≤ q) : n ≤ pyInt q := by
  unfold pyInt
  split
  · next hq =>
    calc n = ⌈(n : ℚ)⌉ := (Int.ceil_intCast n).symm
    _ ≤ ⌈q⌉ := Int.ceil_le_ceil h
  · exact Int.le_floor.mpr h

end PyIntLemmas

section PackLemmas

theorem packUInt_ok (k : Nat) (v : ℤ) (h1 : 0 ≤ v) (h2 : v < 2 ^ (8 * k)) :
    packUInt k v = .ok (beBytes k v.toNat) := by
  unfold packUInt
  rw [if_pos ⟨h1, h2⟩]

theorem packSInt_ok (k : Nat) (v : ℤ) (h1 : -(2 ^ (8 * k - 1)) ≤ v)
    (h2 : v < 2 ^ (8 * k - 1)) :
    packSInt k v = .ok (beBytes k (v % 2 ^ (8 * k)).toNat) := by
  unfold packSInt
  rw [if_pos ⟨h1, h2⟩]

theorem float_to_u16_int (n : ℤ) (h1 : 0 ≤ n) (h2 : n ≤ 1) :
    float_to_u16 ((n : ℚ)) = .ok (min (n * 65536) 65535) := by
  unfold float_to_u16
  rw [if_pos ⟨by exact_mod_cast h1, by exact_mod_cast h2⟩]
  have hc : ((n : ℚ) * 65536) = ((n * 65536 : ℤ) : ℚ) := by push_cast; ring
  rw [hc, pyInt_intCast]

theorem float_to_i16_int (n : ℤ) (h1 : -1 ≤ n) (h2 : n ≤ 1) :
    float_to_i16 ((n : ℚ)) = .ok (min (max (n * 32768) (-32768)) 32767) := by
  unfold float_to_i16
  rw [if_pos ⟨by exact_mod_cast h1, by exact_mod_cast h2⟩]
  have hc : ((n : ℚ) * 32768) = ((n * 32768 : ℤ) : ℚ) := by push_cast; ring
  rw [hc, pyInt_intCast]

theorem bindOk {ε α β : Type} (a : α) (f : α → Except ε β) :
    (Except.ok a : Except ε α) >>= f = f a := rfl

theorem bindErr {ε α β : Type} (e : ε) (f : α → Except ε β) :
    (Except.error e : Except ε α) >>= f = .error e := rfl

theorem drop_of_eq_append {α : Type} {pkg pre suf : List α} {k : Nat}
    (h : pkg = pre ++ suf) (hl : pre.length = k) : pkg.drop k = suf := by
  subst h
  exact List.drop_left' hl

/-- Field extraction from a touch package: with the tag byte, a 1-byte
action, an 8-byte pointer id and two 4-byte coordinates up front, bytes
10–13 are the x field and bytes 14–17 the y field. -/
theorem touch_fields (t : Nat) (b1 b2 b3 b4 b5 b6 b7 b8 b9 : List Nat)
    (h1 : b1.length = 1) (h2 : b2.length = 8) (h3 : b3.length = 4)
    (h4 : b4.length = 4) :
    (((t :: (b1 ++ b2 ++ b3 ++ b4 ++ b5 ++ b6 ++ b7 ++ b8 ++ b9)).drop 10).take 4
        = b3) ∧
    (((t :: (b1 ++ b2 ++ b3 ++ b4 ++ b5 ++ b6 ++ b7 ++ b8 ++ b9)).drop 14).take 4
        = b4) := by
  constructor
  · rw [@drop_of_eq_append _ (t :: (b1 ++ b2 ++ b3 ++ b4 ++ b5 ++ b6 ++ b7 ++ b8 ++ b9))
      (t :: (b1 ++ b2))
      (b3 ++ (b4 ++ (b5 ++ (b6 ++ (b7 ++ (b8 ++ b9)))))) 10
      (by simp [List.append_assoc]) (by simp [h1, h2])]
    exact List.take_left' h3
  · rw [@drop_of_eq_append _ (t :: (b1 ++ b2 ++ b3 ++ b4 ++ b5 ++ b6 ++ b7 ++ b8 ++ b9))
      (t :: (b1 ++ b2 ++ b3))
      (b4 ++ (b5 ++ (b6 ++ (b7 ++ (b8 ++ b9))))) 14
      (by simp [List.append_assoc]) (by simp [h1, h2, h3])]
    exact List.take_left' h4

end PackLemmas

/-- C5: for every float `f` in `[-1, 1]`, `float_to_i16 f` equals the
spec's `clamp(round_toward_zero(f * 32768), -32768, 32767)` and lies in
`[-32768, 32767]`; for every float `g` in `[0, 1]`, `float_to_u16 g` equals
`clamp(round_toward_zero(g * 65536), 0, 65535)`; and the boundary values
are `float_to_i16 1 = 32767`, `float_to_i16 (-1) = -32768`,
`float_to_i16 0 = 0`, `float_to_u16 0 = 0`, `float_to_u16 1 = 65535`. -/
theorem fixed16_matches_spec (f g : ℚ)
    (hf1 : -1 ≤ f) (hf2 : f ≤ 1) (hg1 : 0 ≤ g) (hg2 : g ≤ 1) :
    float_to_i16 f = .ok (fixed16SignedSpec f) ∧
    -32768 ≤ fixed16SignedSpec f ∧ fixed16SignedSpec f ≤ 32767 ∧
    float_to_u16 g = .ok (fixed16UnsignedSpec g) ∧
    float_to_i16 1 = .ok 32767 ∧ float_to_i16 (-1) = .ok (-32768) ∧
    float_to_i16 0 = .ok 0 ∧ float_to_u16 0 = .ok 0 ∧
    float_to_u16 1 = .ok 65535 := by
  have hclampEq : ∀ t : ℤ, min (max t (-32768)) 32767 = clampSpec t (-32768) 32767 := by
    intro t
    simp only [clampSpec, min_def, max_def]
    split_ifs <;> omega
  have hi16 : ∀ q : ℚ, -1 ≤ q → q ≤ 1 →
      float_to_i16 q = .ok (fixed16SignedSpec q) := by
    intro q h1 h2
    unfold float_to_i16 fixed16SignedSpec
    rw [if_pos ⟨h1, h2⟩]
    norm_num [hclampEq]
  refine ⟨hi16 f hf1 hf2, ?_, ?_, ?_, ?_, ?_, ?_, ?_, ?_⟩
  · unfold fixed16SignedSpec clampSpec
    exact le_max_left _ _
  · unfold fixed16SignedSpec clampSpec
    simp only [min_def, max_def]
    split_ifs <;> omega
  · unfold float_to_u16 fixed16UnsignedSpec
    rw [if_pos ⟨hg1, hg2⟩]
    have ht : 0 ≤ pyInt (g * 65536) :=
      pyInt_nonneg (by positivity)
    have : clampSpec (pyInt (g * 65536)) 0 65535 =
        min (pyInt (g * 65536)) 65535 := by
      unfold clampSpec
      simp only [min_def, max_def]
      split_ifs <;> omega
    rw [this]
  · have h1 : ((1 : ℚ) * 32768) = ((32768 : ℤ) : ℚ) := by norm_num
    rw [float_to_i16, if_pos (by norm_num), h1, pyInt_intCast]
    decide
  · have h1 : ((-1 : ℚ) * 32768) = ((-32768 : ℤ) : ℚ) := by norm_num
    rw [float_to_i16, if_pos (by norm_num), h1, pyInt_intCast]
    decide
  · have h1 : ((0 : ℚ) * 32768) = ((0 : ℤ) : ℚ) := by norm_num
    rw [float_to_i16, if_pos (by norm_num), h1, pyInt_intCast]
    decide
  · have h1 : ((0 : ℚ) * 65536) = ((0 : ℤ) : ℚ) := by norm_num
    rw [float_to_u16, if_pos (by norm_num), h1, pyInt_intCast]
    decide
  · have h1 : ((1 : ℚ) * 65536) = ((65536 : ℤ) : ℚ) := by norm_num
    rw [float_to_u16, if_pos (by norm_num), h1, pyInt_intCast]
    decide

/-- Witness for C5 at `f = mkRat 1 2`, `g = mkRat 1 2`. -/
theorem fixed16_matches_spec_witness :
    (-1 : ℚ) ≤ mkRat 1 2 ∧ mkRat 1 2 ≤ (1 : ℚ) ∧ (0 : ℚ) ≤ mkRat 1 2 ∧
      float_to_i16 (mkRat 1 2) = .ok (fixed16SignedSpec (mkRat 1 2)) :=
  ⟨by decide, by decide, by decide,
    (fixed16_matches_spec (mkRat 1 2) (mkRat 1 2) (by decide) (by decide)
      (by decide) (by decide)).1⟩

/-- C1 (amended): touch coordinates outside the valid range are clamped,
not rejected, but the clamp is to the inclusive interval
`[0, resolution]` — `min(max(coord, 0), max_coord)` with
`max_coord = resolution` — not to `[0, resolution - 1]`: the encoded
x field is `min(max(x, 0), width)` and the encoded y field is
`min(max(y, 0), height)`; in particular `touch(-5, 99999)` on a 100×100
resolution encodes `x = 0` and `y = 100`. -/
theorem touch_clamps_inclusive (st : SessionState) (w h : Nat)
    (hres : st.resolution = some (w, h)) (hw : w < 2 ^ 16) (hh : h < 2 ^ 16)
    (x y a tid : ℤ) (p : ℚ)
    (ha1 : 0 ≤ a) (ha2 : a < 2 ^ 8)
    (htid1 : -(2 ^ 63) ≤ tid) (htid2 : tid < 2 ^ 63)
    (hp1 : 0 ≤ p) (hp2 : p ≤ 1) :
    ∃ pkg, touch st x y a tid p = .ok pkg ∧
      sVal32 ((pkg.drop 10).take 4) = min (max x 0) (w : ℤ) ∧
      sVal32 ((pkg.drop 14).take 4) = min (max y 0) (h : ℤ) := by
  have hwz : ((w : ℤ)) < 2 ^ 16 := by exact_mod_cast hw
  have hhz : ((h : ℤ)) < 2 ^ 16 := by exact_mod_cast hh
  have hcx0 : (0 : ℤ) ≤ min (max x 0) (w : ℤ) :=
    le_min (le_max_right x 0) (Int.natCast_nonneg w)
  have hcxw : min (max x 0) (w : ℤ) ≤ (w : ℤ) := min_le_right _ _
  have hcy0 : (0 : ℤ) ≤ min (max y 0) (h : ℤ) :=
    le_min (le_max_right y 0) (Int.natCast_nonneg h)
  have hcyh : min (max y 0) (h : ℤ) ≤ (h : ℤ) := min_le_right _ _
  have hk0 : 0 ≤ pyInt p := pyInt_nonneg hp1
  have hk1 : pyInt p ≤ 1 := pyInt_le (by exact_mod_cast hp2)
  have hfu := float_to_u16_int (pyInt p) hk0 hk1
  have hA := packUInt_ok 1 a ha1 (by norm_num at ha2 ⊢; omega)
  have hID := packSInt_ok 8 tid (by norm_num at htid1 ⊢; omega)
    (by norm_num at htid2 ⊢; omega)
  have hX := packSInt_ok 4 (min (max x 0) (w : ℤ))
    (by norm_num at hwz hcx0 ⊢; omega) (by norm_num at hwz ⊢; omega)
  have hY := packSInt_ok 4 (min (max y 0) (h : ℤ))
    (by norm_num at hhz hcy0 ⊢; omega) (by norm_num at hhz ⊢; omega)
  have hW := packUInt_ok 2 ((w : ℤ)) (Int.natCast_nonneg w)
    (by norm_num at hwz ⊢; omega)
  have hH := packUInt_ok 2 ((h : ℤ)) (Int.natCast_nonneg h)
    (by norm_num at hhz ⊢; omega)
  have hpv0 : 0 ≤ min (pyInt p * 65536) 65535 :=
    le_min (mul_nonneg hk0 (by norm_num)) (by norm_num)
  have hpv2 : min (pyInt p * 65536) 65535 < 2 ^ (8 * 2) := by
    have := min_le_right (pyInt p * 65536) 65535
    norm_num at this ⊢
  have hP := packUInt_ok 2 (min (pyInt p * 65536) 65535) hpv0 hpv2
  have hBTN := packSInt_ok 4 AMOTION_EVENT_BUTTON_PRIMARY
    (by norm_num [AMOTION_EVENT_BUTTON_PRIMARY])
    (by norm_num [AMOTION_EVENT_BUTTON_PRIMARY])
  have hpkg : touch st x y a tid p = .ok
      (TYPE_INJECT_TOUCH_EVENT ::
        (beBytes 1 a.toNat ++ beBytes 8 ((tid % 2 ^ (8 * 8)).toNat) ++
          beBytes 4 ((min (max x 0) (w : ℤ) % 2 ^ (8 * 4)).toNat) ++
          beBytes 4 ((min (max y 0) (h : ℤ) % 2 ^ (8 * 4)).toNat) ++
          beBytes 2 ((w : ℤ)).toNat ++ beBytes 2 ((h : ℤ)).toNat ++
          beBytes 2 (min (pyInt p * 65536) 65535).toNat ++
          beBytes 4 ((AMOTION_EVENT_BUTTON_PRIMARY % 2 ^ (8 * 4)).toNat) ++
          beBytes 4 ((AMOTION_EVENT_BUTTON_PRIMARY % 2 ^ (8 * 4)).toNat))) := by
    simp only [touch, hres]
    simp only [hfu, hA, hID, hX, hY, hW, hH, hP, hBTN, bindOk]
  refine ⟨_, hpkg, ?_, ?_⟩
  · rw [(touch_fields _ _ _ _ _ _ _ _ _ _ (length_beBytes 1 _)
      (length_beBytes 8 _) (length_beBytes 4 _) (length_beBytes 4 _)).1]
    exact (sVal32_roundtrip _ (by norm_num at hwz hcx0 ⊢; omega)
      (by norm_num at hwz ⊢; omega)).2
  · rw [(touch_fields _ _ _ _ _ _ _ _ _ _ (length_beBytes 1 _)
      (length_beBytes 8 _) (length_beBytes 4 _) (length_beBytes 4 _)).2]
    exact (sVal32_roundtrip _ (by norm_num at hhz hcy0 ⊢; omega)
      (by norm_num at hhz ⊢; omega)).2

/-- Witness for C1 at `touch(-5, 99999)` on a 100×100 resolution. -/
theorem touch_clamps_inclusive_witness :
    (⟨some (100, 100), 0⟩ : SessionState).resolution = some (100, 100) ∧
    ∃ pkg, touch ⟨some (100, 100), 0⟩ (-5) 99999 0 (-1) 1 = .ok pkg ∧
      sVal32 ((pkg.drop 10).take 4) = min (max (-5) 0) ((100 : Nat) : ℤ) ∧
      sVal32 ((pkg.drop 14).take 4) = min (max 99999 0) ((100 : Nat) : ℤ) :=
  ⟨rfl, touch_clamps_inclusive ⟨some (100, 100), 0⟩ 100 100 rfl (by decide)
    (by decide) (-5) 99999 0 (-1) 1 (by decide) (by decide) (by decide)
    (by decide) (by decide) (by decide)⟩

/-- C1 counterexample to the claim as stated: `touch(-5, 99999)` on a
100×100 resolution encodes `y = 100` in the wire payload (bytes 14–17 of
the package), not `y = 99` — the code clamps with `max_y = resolution`,
an inclusive upper bound, not `resolution - 1`. -/
theorem touch_clamp_counterexample :
    touch ⟨some (100, 100), 0⟩ (-5) 99999 0 (-1) 1 = .ok
      [2, 0, 255, 255, 255, 255, 255, 255, 255, 255, 0, 0, 0, 0,
        0, 0, 0, 100, 0, 100, 0, 100, 255, 255, 0, 0, 0, 1, 0, 0, 0, 1] ∧
    sVal32 (([2, 0, 255, 255, 255, 255, 255, 255, 255, 255, 0, 0, 0, 0,
        0, 0, 0, 100, 0, 100, 0, 100, 255, 255, 0, 0, 0, 1, 0, 0, 0,
        1].drop 14).take 4) = 100 ∧ (100 : ℤ) ≠ 99 := by
  have h1 : pyInt (1 : ℚ) = (1 : ℤ) := by decide
  have hu : float_to_u16 (((1 : ℤ) : ℚ)) = .ok 65535 := by
    rw [float_to_u16_int 1 (by decide) (by decide)]
    decide
  refine ⟨?_, by decide, by decide⟩
  simp only [touch, h1, hu, bindOk]
  rfl

/-- C3 (code bug): `ControlSender.touch` converts the pressure with
`float_to_u16(int(pressure))` — the `int()` truncates the float before the
fixed-point conversion — so `pressure = 1/2` encodes as `0` in the 2-byte
pressure field (bytes 22–23), while the spec's conversion
`clamp(round_toward_zero(p * 65536), 0, 65535)` gives `32768`. -/
theorem touch_pressure_truncated :
    touch ⟨some (100, 100), 0⟩ 0 0 0 (-1) (mkRat 1 2) = .ok
      [2, 0, 255, 255, 255, 255, 255, 255, 255, 255, 0, 0, 0, 0,
        0, 0, 0, 0, 0, 100, 0, 100, 0, 0, 0, 0, 0, 1, 0, 0, 0, 1] ∧
    beVal (([2, 0, 255, 255, 255, 255, 255, 255, 255, 255, 0, 0, 0, 0,
        0, 0, 0, 0, 0, 100, 0, 100, 0, 0, 0, 0, 0, 1, 0, 0, 0,
        1].drop 22).take 2) = 0 ∧
    fixed16UnsignedSpec (mkRat 1 2) = 32768 := by
  have h1 : pyInt (mkRat 1 2) = (0 : ℤ) := by decide
  have hu : float_to_u16 (((0 : ℤ) : ℚ)) = .ok 0 := by
    rw [float_to_u16_int 0 (by decide) (by decide)]
    decide
  refine ⟨?_, by decide, ?_⟩
  · simp only [touch, h1, hu, bindOk]
    rfl
  · have hm : (mkRat 1 2 : ℚ) * 65536 = ((32768 : ℤ) : ℚ) := by
      rw [Rat.mkRat_eq_divInt, Rat.divInt_eq_div]
      norm_num
    unfold fixed16UnsignedSpec
    rw [hm, pyInt_intCast]
    decide

/-- C2 (code bug): `ControlSender.scroll` packs the two fixed-point delta
fields with the unsigned format `H`, so any negative delta — including the
default `v = -16`, which converts to `-32768` — makes `struct.pack` raise
`struct.error` instead of returning a payload. -/
theorem scroll_negative_delta_raises :
    scroll ⟨some (100, 100), 0⟩ 0 0 16 (-16) = .error .packRange := by
  have hh16 : (((16 : ℤ) : ℚ)) / 16 = (((1 : ℤ) : ℚ)) := by norm_num
  have hv16 : (((-16 : ℤ) : ℚ)) / 16 = (((-1 : ℤ) : ℚ)) := by norm_num
  have hfh : float_to_i16 ((((16 : ℤ) : ℚ)) / 16) = .ok 32767 := by
    rw [hh16, float_to_i16_int 1 (by decide) (by decide)]
    decide
  have hfv : float_to_i16 ((((-16 : ℤ) : ℚ)) / 16) = .ok (-32768) := by
    rw [hv16, float_to_i16_int (-1) (by decide) (by decide)]
    decide
  simp only [scroll, hfh, hfv, bindOk]
  rfl

/-- C9: the resolution is latched from the first decoded frame and never
changed by any later frame-ingestion step; a session start resets it to
unknown. -/
theorem resolution_latched_once :
    (∀ (wh : Nat × Nat) (fs : List FrameInfo),
      ingestFrames (some wh) fs = some wh) ∧
    (∀ (f : FrameInfo) (fs : List FrameInfo),
      ingestFrames startResolution (f :: fs) = some (f.width, f.height)) ∧
    startResolution = (none : Option (Nat × Nat)) := by
  have hsome : ∀ (fs : List FrameInfo) (wh : Nat × Nat),
      ingestFrames (some wh) fs = some wh := by
    intro fs
    induction fs with
    | nil => intro wh; rfl
    | cons f t ih =>
      intro wh
      simpa [ingestFrames, ingestFrame] using ih wh
  refine ⟨fun wh fs => hsome fs wh, fun f fs => ?_, rfl⟩
  have : ingestFrames startResolution (f :: fs) =
      ingestFrames (some (f.width, f.height)) fs := rfl
  rw [this, hsome]

/-- C10: a `set_clipboard` whose UTF-8 buffer exceeds the maximum byte
length fails with the over-length error and leaves the session state — in
particular the clipboard sequence counter — exactly as it was. -/
theorem set_clipboard_too_long (st : SessionState) (s : String) (p : Bool)
    (maxLen : Nat) (h : maxLen < (utf8Bytes s).length) :
    set_clipboard st s p maxLen = (st, .error .textTooLong) := by
  unfold set_clipboard
  rw [if_pos h]

/-- Witness for C10: one-byte text against a zero byte budget. -/
theorem set_clipboard_too_long_witness :
    0 < (utf8Bytes "a").length ∧
      set_clipboard initSession "a" false 0 = (initSession, .error .textTooLong) :=
  ⟨by decide, set_clipboard_too_long initSession "a" false 0 (by decide)⟩

/-- A successful `set_clipboard` call increments the counter by exactly 1,
the 8-byte sequence field of its package holds the incremented value, and
the incremented value is within the signed 64-bit pack range. -/
theorem set_clipboard_spec (st : SessionState) (s : String) (p : Bool)
    (maxLen : Nat) (hok : isOk (set_clipboard st s p maxLen).2 = true) :
    (set_clipboard st s p maxLen).1.clipboardSequence =
      st.clipboardSequence + 1 ∧
    seqFieldOf (set_clipboard st s p maxLen).2 =
      some (beBytes 8 ((st.clipboardSequence + 1) % 2 ^ (8 * 8)).toNat) ∧
    -(2 ^ (8 * 8 - 1)) ≤ st.clipboardSequence + 1 ∧
    st.clipboardSequence + 1 < 2 ^ (8 * 8 - 1) := by
  unfold set_clipboard at hok ⊢
  by_cases hlen : (utf8Bytes s).length > maxLen
  · rw [if_pos hlen] at hok
    simp [isOk] at hok
  · rw [if_neg hlen] at hok ⊢
    by_cases h1 : -(2 ^ (8 * 8 - 1)) ≤ st.clipboardSequence + 1 ∧
        st.clipboardSequence + 1 < 2 ^ (8 * 8 - 1)
    · by_cases h2 : -(2 ^ (8 * 4 - 1)) ≤ ((utf8Bytes s).length : ℤ) ∧
          ((utf8Bytes s).length : ℤ) < 2 ^ (8 * 4 - 1)
      · have hp8 := packSInt_ok 8 (st.clipboardSequence + 1) h1.1 h1.2
        have hp4 := packSInt_ok 4 ((utf8Bytes s).length : ℤ) h2.1 h2.2
        refine ⟨rfl, ?_, h1.1, h1.2⟩
        simp only [hp8, hp4, bindOk, seqFieldOf]
        simp only [List.drop_succ_cons, List.drop_zero, List.append_assoc]
        rw [List.take_left' (length_beBytes 8 _)]
      · have hp8 := packSInt_ok 8 (st.clipboardSequence + 1) h1.1 h1.2
        have hp4 : packSInt 4 ((utf8Bytes s).length : ℤ) = .error .packRange := by
          unfold packSInt
          rw [if_neg h2]
        simp only [hp8, hp4, bindOk, bindErr, isOk] at hok
        exact (Bool.false_ne_true hok).elim
    · have hp8 : packSInt 8 (st.clipboardSequence + 1) = .error .packRange := by
        unfold packSInt
        rw [if_neg h1]
      simp only [hp8, bindErr, isOk] at hok
      exact (Bool.false_ne_true hok).elim

/-- The run of `set_clipboard` calls: if every call succeeded then the
final counter is the start counter plus the number of calls, and the k-th
call's package carries sequence number `start + k + 1`. -/
theorem clipRun_ok_spec (maxLen : Nat) (inputs : List (String × Bool)) :
    ∀ st : SessionState,
      (∀ r ∈ (clipRun st maxLen inputs).2, isOk r = true) →
      (clipRun st maxLen inputs).1.clipboardSequence =
        st.clipboardSequence + inputs.length ∧
      ∀ k, k < inputs.length →
        (st.clipboardSequence + k + 1 < 2 ^ (8 * 8 - 1) ∧
          ((clipRun st maxLen inputs).2.map seqFieldOf)[k]? =
            some (some (beBytes 8
              ((st.clipboardSequence + k + 1) % 2 ^ (8 * 8)).toNat))) := by
  induction inputs with
  | nil =>
    intro st _
    refine ⟨by simp [clipRun], ?_⟩
    intro k hk
    simp at hk
  | cons ip rest ih =>
    obtain ⟨s, p⟩ := ip
    intro st hok
    have hmem1 : (set_clipboard st s p maxLen).2 ∈
        (clipRun st maxLen ((s, p) :: rest)).2 := by
      simp [clipRun]
    have hr : isOk (set_clipboard st s p maxLen).2 = true := hok _ hmem1
    have hspec := set_clipboard_spec st s p maxLen hr
    have hrest : ∀ r ∈ (clipRun (set_clipboard st s p maxLen).1 maxLen rest).2,
        isOk r = true := by
      intro r hmem
      exact hok r (by simp [clipRun]; right; exact hmem)
    have hrec := ih (set_clipboard st s p maxLen).1 hrest
    constructor
    · show (clipRun (set_clipboard st s p maxLen).1 maxLen rest).1.clipboardSequence = _
      rw [hrec.1, hspec.1]
      simp only [List.length_cons]
      push_cast
      omega
    · intro k hk
      cases k with
      | zero =>
        refine ⟨by have := hspec.2.2.2; omega, ?_⟩
        show (seqFieldOf (set_clipboard st s p maxLen).2 ::
          (clipRun (set_clipboard st s p maxLen).1 maxLen rest).2.map seqFieldOf)[0]? = _
        simp only [List.getElem?_cons_zero, hspec.2.1]
        norm_num
      | succ k' =>
        have hk' : k' < rest.length := by simpa using hk
        have hrk := hrec.2 k' hk'
        rw [hspec.1] at hrk
        constructor
        · have := hrk.1
          push_cast at this ⊢
          omega
        · show (seqFieldOf (set_clipboard st s p maxLen).2 ::
            (clipRun (set_clipboard st s p maxLen).1 maxLen rest).2.map
              seqFieldOf)[k' + 1]? = _
          simp only [List.getElem?_cons_succ]
          rw [hrk.2]
          congr 3
          push_cast
          ring_nf

/-- C6: the clipboard sequence counter starts at 0 in a fresh session;
every successful `set_clipboard` call increments it by exactly 1 before
encoding and writes the incremented value into the package's 8-byte
sequence field; and in a run of successful calls from a fresh session the
k-th call (0-based) encodes sequence number `k + 1`, the final counter
equalling the number of calls — so the counter is strictly increasing
across successful calls. -/
theorem clipboard_sequence_counter (st : SessionState) (s : String)
    (p : Bool) (maxLen : Nat) (inputs : List (String × Bool)) (k : Nat)
    (hok1 : isOk (set_clipboard st s p maxLen).2 = true)
    (hall : ∀ r ∈ (clipRun initSession maxLen inputs).2, isOk r = true)
    (hk : k < inputs.length) :
    initSession.clipboardSequence = 0 ∧
    (set_clipboard st s p maxLen).1.clipboardSequence =
      st.clipboardSequence + 1 ∧
    seqFieldOf (set_clipboard st s p maxLen).2 =
      some (beBytes 8 ((st.clipboardSequence + 1) % 2 ^ (8 * 8)).toNat) ∧
    ((clipRun initSession maxLen inputs).2.map seqFieldOf)[k]? =
      some (some (beBytes 8 (k + 1))) ∧
    (clipRun initSession maxLen inputs).1.clipboardSequence =
      inputs.length := by
  have hspec := set_clipboard_spec st s p maxLen hok1
  have hrun := clipRun_ok_spec maxLen inputs initSession hall
  have hkth := hrun.2 k hk
  refine ⟨rfl, hspec.1, hspec.2.1, ?_, by simpa [initSession] using hrun.1⟩
  have h1 : initSession.clipboardSequence = 0 := rfl
  have h2 : ((2 : ℤ)) ^ (8 * 8) = 18446744073709551616 := by norm_num
  have h3 : ((2 : ℤ)) ^ (8 * 8 - 1) = 9223372036854775808 := by norm_num
  have hb := hkth.1
  rw [h1, h3] at hb
  have harg : ((initSession.clipboardSequence + (k : ℤ) + 1) % 2 ^ (8 * 8)).toNat
      = k + 1 := by
    rw [h1, h2]
    omega
  rw [hkth.2, harg]

/-- Witness for C6: two successful calls from a fresh session; the second
(k = 1) encodes sequence number 2. -/
theorem clipboard_sequence_counter_witness :
    isOk (set_clipboard initSession "a" false 300).2 = true ∧
    (∀ r ∈ (clipRun initSession 300 [("a", false), ("b", true)]).2,
      isOk r = true) ∧
    ((clipRun initSession 300 [("a", false), ("b", true)]).2.map
      seqFieldOf)[1]? = some (some (beBytes 8 2)) :=
  ⟨by decide, by decide,
    (clipboard_sequence_counter initSession "a" false 300
      [("a", false), ("b", true)] 1 (by decide) (by decide)
      (by decide)).2.2.2.1⟩

/-- Value of `stepsNum` for the swipe `(0,0) → (100,0)` with step length 10:
the distance is 100 and `int(100 / 10 + 0.5) = 10`. -/
theorem stepsNum_10000_10 : stepsNum 10000 10 = 10 := by
  unfold stepsNum
  rw [show (4 * 10000 : ℕ) = 200 * 200 from by norm_num, Nat.sqrt_eq]
  decide

/-- Value of `stepsNum` for coincident endpoints: `max(int(0 + 0.5), 1) = 1`. -/
theorem stepsNum_0 (L : Nat) (hL : 0 < L) : stepsNum 0 L = 1 := by
  unfold stepsNum
  rw [show (4 * 0 : ℕ) = 0 * 0 from by norm_num, Nat.sqrt_eq]
  have h2 : (0 + L) / (2 * L) = 0 := Nat.div_eq_of_lt (by omega)
  rw [h2]
  decide

/-- The function `stepsNum` is exactly the source's
`max(int(hypotenuse / move_step_length + 0.5), 1)` with `hypotenuse` the
exact real square root of the squared distance: for a nonnegative real the
Python `int()` is the floor. -/
theorem stepsNum_eq_floor (d2 L : Nat) (hL : 0 < L) :
    stepsNum d2 L = max ⌊(Real.sqrt (d2 : ℝ) / L + 1 / 2 : ℝ)⌋₊ 1 := by
  unfold stepsNum
  congr 1
  have h1 : (Real.sqrt (d2 : ℝ) / L + 1 / 2 : ℝ) =
      (2 * Real.sqrt (d2 : ℝ) + L) / ((2 * L : ℕ) : ℝ) := by
    have hL0 : ((L : ℝ)) ≠ 0 := by positivity
    push_cast
    field_simp
    ring
  rw [h1, Nat.floor_div_nat]
  congr 1
  rw [show ((L : ℝ)) = ((L : ℕ) : ℝ) from rfl,
    Nat.floor_add_nat (by positivity) L]
  congr 1
  have h3 : (2 : ℝ) * Real.sqrt (d2 : ℝ) = Real.sqrt ((4 * d2 : ℕ) : ℝ) := by
    push_cast
    rw [show ((4 : ℝ) * (d2 : ℝ)) = 2 ^ 2 * (d2 : ℝ) from by ring,
      Real.sqrt_mul (by positivity), Real.sqrt_sq (by norm_num)]
  rw [h3, Real.nat_floor_real_sqrt_eq_nat_sqrt]

/-- The identity is one admissible rounding model (it models the runs in
which every float operation happens to be exact). -/
theorem floatRound_id : FloatRound id := fun _ _ _ => rfl

/-- Unfolding of the `swipe` relation when the resolution is known and the
step length is positive, with the clamped endpoints, squared distance and
step count abstracted into equation hypotheses: an outcome is admissible
iff some `FloatRound` rounding produces its event list. -/
theorem swipe_cases (st : SessionState) (w h : Nat)
    (hres : st.resolution = some (w, h)) (sx sy ex ey : ℤ) (L : Nat)
    (hL : 0 < L) (csx csy cex cey : ℤ) (d2 n : Nat)
    (hcsx : csx = min (max sx 0) (w : ℤ)) (hcsy : csy = min (max sy 0) (h : ℤ))
    (hcex : cex = min (max ex 0) (w : ℤ)) (hcey : cey = min (max ey 0) (h : ℤ))
    (hd2 : d2 = ((cex - csx) ^ 2 + (cey - csy) ^ 2).toNat)
    (hn : n = stepsNum d2 L) (r : Except ScrErr (List (ℤ × ℤ × ℤ))) :
    swipe st sx sy ex ey L r ↔
      ∃ fl : ℚ → ℚ, FloatRound fl ∧
        r = .ok (swipeEventsWith fl csx csy cex cey n) := by
  simp only [swipe, hres]
  rw [if_neg hL.ne']
  simp only [← hcsx, ← hcsy, ← hcex, ← hcey, ← hd2, ← hn]

/-- C4: with the resolution known and a positive step length, every
admissible outcome of `swipe` — and the real program's outcome is
admissible for every `FloatRound` rounding, in particular IEEE
round-to-nearest — is a list of exactly `n + 1` touch events, one down at
the clamped start, `n - 1` moves and one final up, where
`n = stepsNum d2 L = max(int(d / L + 0.5), 1)` and `d = sqrt d2` is the
Euclidean distance between the clamped endpoints (the up's position is
whatever the rounded accumulation reaches, which floating-point error can
move off the clamped end point); in particular `swipe(0,0,100,0)` with
step length 10 on a 200×200 resolution — where the step `100 / 10 = 10`
and every accumulated position are integers, hence exact under any
admissible rounding — emits exactly 11 events (1 down, 9 moves, 1 up),
all with `y = 0`, with `x` monotonically non-decreasing and the final up
event at `x = 100`; and coincident endpoints degenerate to down-then-up
with no moves.  Both concrete relations are also satisfiable, so the two
implications are not vacuous. -/
theorem swipe_event_structure (st : SessionState) (w h : Nat)
    (hres : st.resolution = some (w, h)) (sx sy ex ey : ℤ) (L : Nat)
    (hL : 0 < L) (csx csy cex cey : ℤ) (d2 n : Nat)
    (hcsx : csx = min (max sx 0) (w : ℤ)) (hcsy : csy = min (max sy 0) (h : ℤ))
    (hcex : cex = min (max ex 0) (w : ℤ)) (hcey : cey = min (max ey 0) (h : ℤ))
    (hd2 : d2 = ((cex - csx) ^ 2 + (cey - csy) ^ 2).toNat)
    (hn : n = stepsNum d2 L) :
    ((∃ r, swipe st sx sy ex ey L r) ∧
      ∀ r, swipe st sx sy ex ey L r →
        ∃ (middles : List (ℤ × ℤ × ℤ)) (px py : ℤ),
          r = .ok ((ACTION_DOWN, csx, csy) :: middles ++ [(ACTION_UP, px, py)]) ∧
          middles.length = n - 1 ∧
          (∀ e ∈ middles, e.1 = ACTION_MOVE) ∧
          ((ACTION_DOWN, csx, csy) :: middles ++
            [(ACTION_UP, px, py)]).length = n + 1 ∧
          1 ≤ n) ∧
    ((∃ r, swipe ⟨some (200, 200), 0⟩ 0 0 100 0 10 r) ∧
      ∀ r, swipe ⟨some (200, 200), 0⟩ 0 0 100 0 10 r →
        ∃ evs : List (ℤ × ℤ × ℤ),
          r = .ok evs ∧
          evs = [(ACTION_DOWN, 0, 0), (ACTION_MOVE, 10, 0), (ACTION_MOVE, 20, 0),
          (ACTION_MOVE, 30, 0), (ACTION_MOVE, 40, 0), (ACTION_MOVE, 50, 0),
          (ACTION_MOVE, 60, 0), (ACTION_MOVE, 70, 0), (ACTION_MOVE, 80, 0),
          (ACTION_MOVE, 90, 0), (ACTION_UP, 100, 0)] ∧
          evs.length = 11 ∧
          (∀ e ∈ evs, e.2.2 = (0 : ℤ)) ∧
          List.Chain' (fun a b => a.2.1 ≤ b.2.1) evs ∧
          evs.getLast? = some (ACTION_UP, 100, 0)) ∧
    ((∃ r, swipe ⟨some (200, 200), 0⟩ 5 5 5 5 10 r) ∧
      ∀ r, swipe ⟨some (200, 200), 0⟩ 5 5 5 5 10 r →
        r = .ok [(ACTION_DOWN, 5, 5), (ACTION_UP, 5, 5)]) ∧
    stepsNum d2 L = max ⌊(Real.sqrt (d2 : ℝ) / L + 1 / 2 : ℝ)⌋₊ 1 := by
  have hn1 : 1 ≤ n := hn ▸ le_max_right _ 1
  have hiff := swipe_cases st w h hres sx sy ex ey L hL csx csy cex cey d2 n
    hcsx hcsy hcex hcey hd2 hn
  have hiffc := swipe_cases ⟨some (200, 200), 0⟩ 200 200 rfl 0 0 100 0 10
    (by decide) 0 0 100 0 10000 10 (by decide) (by decide) (by decide)
    (by decide) (by decide) stepsNum_10000_10.symm
  have hiff5 := swipe_cases ⟨some (200, 200), 0⟩ 200 200 rfl 5 5 5 5 10
    (by decide) 5 5 5 5 0 1 (by decide) (by decide) (by decide) (by decide)
    (by decide) (stepsNum_0 10 (by decide)).symm
  refine ⟨⟨⟨_, (hiff _).mpr ⟨id, floatRound_id, rfl⟩⟩, ?_⟩,
    ⟨⟨_, (hiffc _).mpr ⟨id, floatRound_id, rfl⟩⟩, ?_⟩,
    ⟨⟨_, (hiff5 _).mpr ⟨id, floatRound_id, rfl⟩⟩, ?_⟩,
    stepsNum_eq_floor d2 L hL⟩
  · intro r hr
    obtain ⟨fl, hfl, rfl⟩ := (hiff r).mp hr
    refine ⟨(List.range (n - 1)).map fun (i : ℕ) =>
      (ACTION_MOVE, pyInt (swipeAccum fl csx cex n (i + 1)),
        pyInt (swipeAccum fl csy cey n (i + 1))),
      pyInt (swipeAccum fl csx cex n n), pyInt (swipeAccum fl csy cey n n),
      rfl, ?_, ?_, ?_, hn1⟩
    · rw [List.length_map, List.length_range]
    · intro e he
      simp only [List.mem_map, List.mem_range] at he
      obtain ⟨i, _, rfl⟩ := he
      rfl
    · simp only [List.length_cons, List.length_append, List.length_map,
        List.length_range, List.length_nil]
      omega
  · intro r hr
    obtain ⟨fl, hfl, rfl⟩ := (hiffc r).mp hr
    have hstepx : swipeStep fl 0 100 10 = ((10 : ℤ) : ℚ) := by
      unfold swipeStep
      rw [show (((100 - 0 : ℤ) : ℤ) : ℚ) / ((10 : ℕ) : ℚ) = ((10 : ℤ) : ℚ)
        from by norm_num]
      exact hfl 10 (by norm_num) (by norm_num)
    have hstepy : swipeStep fl 0 0 10 = ((0 : ℤ) : ℚ) := by
      unfold swipeStep
      rw [show (((0 - 0 : ℤ) : ℤ) : ℚ) / ((10 : ℕ) : ℚ) = ((0 : ℤ) : ℚ)
        from by norm_num]
      exact hfl 0 (by norm_num) (by norm_num)
    have haccx : ∀ k : ℕ, k ≤ 10 →
        swipeAccum fl 0 100 10 k = ((10 * (k : ℤ) : ℤ) : ℚ) := by
      intro k
      induction k with
      | zero => intro _; simp [swipeAccum]
      | succ j ih =>
        intro hj
        show fl (swipeAccum fl 0 100 10 j + swipeStep fl 0 100 10) = _
        rw [ih (by omega), hstepx,
          show ((10 * (j : ℤ) : ℤ) : ℚ) + ((10 : ℤ) : ℚ) =
            ((10 * ((j : ℤ) + 1) : ℤ) : ℚ) from by push_cast; ring,
          hfl (10 * ((j : ℤ) + 1)) (by omega) (by omega)]
        congr 1
    have haccy : ∀ k : ℕ, swipeAccum fl 0 0 10 k = ((0 : ℤ) : ℚ) := by
      intro k
      induction k with
      | zero => simp [swipeAccum]
      | succ j ih =>
        show fl (swipeAccum fl 0 0 10 j + swipeStep fl 0 0 10) = _
        rw [ih, hstepy,
          show ((0 : ℤ) : ℚ) + ((0 : ℤ) : ℚ) = ((0 : ℤ) : ℚ) from by norm_num]
        exact hfl 0 (by norm_num) (by norm_num)
    have hlist : swipeEventsWith fl 0 0 100 0 10 =
        [(ACTION_DOWN, 0, 0), (ACTION_MOVE, 10, 0), (ACTION_MOVE, 20, 0),
          (ACTION_MOVE, 30, 0), (ACTION_MOVE, 40, 0), (ACTION_MOVE, 50, 0),
          (ACTION_MOVE, 60, 0), (ACTION_MOVE, 70, 0), (ACTION_MOVE, 80, 0),
          (ACTION_MOVE, 90, 0), (ACTION_UP, 100, 0)] := by
      unfold swipeEventsWith
      rw [show (10 : ℕ) - 1 = 9 from rfl,
        show List.range 9 = [0, 1, 2, 3, 4, 5, 6, 7, 8] from rfl]
      simp only [List.map_cons, List.map_nil]
      rw [haccx (0 + 1) (by norm_num), haccx (1 + 1) (by norm_num),
        haccx (2 + 1) (by norm_num), haccx (3 + 1) (by norm_num),
        haccx (4 + 1) (by norm_num), haccx (5 + 1) (by norm_num),
        haccx (6 + 1) (by norm_num), haccx (7 + 1) (by norm_num),
        haccx (8 + 1) (by norm_num), haccx 10 (by norm_num)]
      simp only [haccy, pyInt_intCast]
      norm_num
    refine ⟨[(ACTION_DOWN, 0, 0), (ACTION_MOVE, 10, 0), (ACTION_MOVE, 20, 0),
          (ACTION_MOVE, 30, 0), (ACTION_MOVE, 40, 0), (ACTION_MOVE, 50, 0),
          (ACTION_MOVE, 60, 0), (ACTION_MOVE, 70, 0), (ACTION_MOVE, 80, 0),
          (ACTION_MOVE, 90, 0), (ACTION_UP, 100, 0)], by rw [hlist], rfl, by decide, by decide, ?_, by decide⟩
    norm_num [List.chain'_cons, ACTION_DOWN, ACTION_MOVE, ACTION_UP]
  · intro r hr
    obtain ⟨fl, hfl, rfl⟩ := (hiff5 r).mp hr
    have hstep5 : swipeStep fl 5 5 1 = ((0 : ℤ) : ℚ) := by
      unfold swipeStep
      rw [show (((5 - 5 : ℤ) : ℤ) : ℚ) / ((1 : ℕ) : ℚ) = ((0 : ℤ) : ℚ)
        from by norm_num]
      exact hfl 0 (by norm_num) (by norm_num)
    have hacc5 : swipeAccum fl 5 5 1 1 = ((5 : ℤ) : ℚ) := by
      show fl (swipeAccum fl 5 5 1 0 + swipeStep fl 5 5 1) = _
      rw [show swipeAccum fl 5 5 1 0 = ((5 : ℤ) : ℚ) from by simp [swipeAccum],
        hstep5,
        show ((5 : ℤ) : ℚ) + ((0 : ℤ) : ℚ) = ((5 : ℤ) : ℚ) from by norm_num]
      exact hfl 5 (by norm_num) (by norm_num)
    have hlist : swipeEventsWith fl 5 5 5 5 1 =
        [(ACTION_DOWN, 5, 5), (ACTION_UP, 5, 5)] := by
      unfold swipeEventsWith
      rw [show (1 : ℕ) - 1 = 0 from rfl,
        show List.range 0 = ([] : List ℕ) from rfl]
      simp only [List.map_nil, List.nil_append]
      rw [hacc5, pyInt_intCast]
      rfl
    rw [hlist]

/-- Witness for C4 at the concrete swipe `(0,0) → (100,0)`, step 10, on a
200×200 resolution. -/
theorem swipe_event_structure_witness :
    (0 : ℤ) = min (max 0 0) ((200 : Nat) : ℤ) ∧
    (10 : ℕ) = stepsNum 10000 10 ∧
    ((∃ r, swipe ⟨some (200, 200), 0⟩ 0 0 100 0 10 r) ∧
      ∀ r, swipe ⟨some (200, 200), 0⟩ 0 0 100 0 10 r →
        ∃ (middles : List (ℤ × ℤ × ℤ)) (px py : ℤ),
          r = .ok ((ACTION_DOWN, 0, 0) :: middles ++ [(ACTION_UP, px, py)]) ∧
          middles.length = 10 - 1 ∧
          (∀ e ∈ middles, e.1 = ACTION_MOVE) ∧
          ((ACTION_DOWN, (0 : ℤ), (0 : ℤ)) :: middles ++
            [(ACTION_UP, px, py)]).length = 10 + 1 ∧
          (1 : ℕ) ≤ 10) :=
  ⟨by decide, stepsNum_10000_10.symm,
    (swipe_event_structure ⟨some (200, 200), 0⟩ 200 200 rfl 0 0 100 0 10
      (by decide) 0 0 100 0 10000 10 (by decide) (by decide) (by decide)
      (by decide) (by decide) stepsNum_10000_10.symm).1⟩

/-- C7: while the resolution is unknown every touch, scroll or swipe call
fails with the resolution-unknown error (nothing reaches the socket
because the decorator only sends a successfully built package), while
keycode, text and the panel commands succeed for in-range arguments
regardless of the resolution state. -/
theorem commands_before_resolution (st : SessionState)
    (hres : st.resolution = none)
    (x y a tid : ℤ) (p : ℚ) (hd vd : ℤ) (sx sy ex ey : ℤ) (L : Nat)
    (kc act rep meta : ℤ)
    (hact1 : 0 ≤ act) (hact2 : act < 2 ^ 8)
    (hkc1 : -(2 ^ 31) ≤ kc) (hkc2 : kc < 2 ^ 31)
    (hrep1 : -(2 ^ 31) ≤ rep) (hrep2 : rep < 2 ^ 31)
    (hmeta1 : -(2 ^ 31) ≤ meta) (hmeta2 : meta < 2 ^ 31)
    (s : String) (hs : (utf8Bytes s).length < 2 ^ 31) :
    touch st x y a tid p = .error .resolutionUnknown ∧
    scroll st x y hd vd = .error .resolutionUnknown ∧
    (swipe st sx sy ex ey L (.error .resolutionUnknown) ∧
      ∀ r, swipe st sx sy ex ey L r → r = .error .resolutionUnknown) ∧
    isOk (keycode kc act rep meta) = true ∧
    isOk (text s) = true ∧
    isOk expand_notification_panel = true ∧
    isOk expand_settings_panel = true ∧
    isOk collapse_panels = true := by
  have hb1 : packUInt 1 act = .ok (beBytes 1 act.toNat) := by
    unfold packUInt
    rw [if_pos]
    exact ⟨hact1, by norm_num at hact2 ⊢; omega⟩
  have hpack4 : ∀ v : ℤ, -(2 ^ 31) ≤ v → v < 2 ^ 31 →
      packSInt 4 v = .ok (beBytes 4 (v % 2 ^ 32).toNat) := by
    intro v h1 h2
    unfold packSInt
    rw [if_pos]
    exact ⟨by norm_num at h1 ⊢; omega, by norm_num at h2 ⊢; omega⟩
  have hlen : packSInt 4 ((utf8Bytes s).length : ℤ) =
      .ok (beBytes 4 ((((utf8Bytes s).length : ℤ)) % 2 ^ 32).toNat) := by
    apply hpack4
    · have : (0 : ℤ) ≤ ((utf8Bytes s).length : ℤ) := Int.natCast_nonneg _
      norm_num at this ⊢
      omega
    · exact_mod_cast hs
  refine ⟨by simp [touch, hres], by simp [scroll, hres],
    ⟨by simp [swipe, hres], fun r hr => by simpa [swipe, hres] using hr⟩,
    ?_, ?_, rfl, rfl, rfl⟩
  · simp only [keycode, hb1, hpack4 kc hkc1 hkc2, hpack4 rep hrep1 hrep2,
      hpack4 meta hmeta1 hmeta2]
    rfl
  · simp only [text, hlen]
    rfl

section Utf8Lemmas

theorem char_toNat_lt (c : Char) : c.toNat < 1114112 := by
  have hv := c.valid
  simp only [UInt32.isValidChar, Nat.isValidChar] at hv
  rcases hv with hsmall | ⟨_, hbig⟩
  · exact Nat.lt_trans hsmall (by norm_num)
  · exact hbig

theorem utf8EncodeCp_ne_nil (n : Nat) : utf8EncodeCp n ≠ [] := by
  unfold utf8EncodeCp
  split_ifs <;> simp

theorem le_length_utf8Encode (cps : List Nat) :
    cps.length ≤ (utf8Encode cps).length := by
  induction cps with
  | nil => simp [utf8Encode]
  | cons c cs ih =>
    have hc : 1 ≤ (utf8EncodeCp c).length :=
      List.length_pos.mpr (utf8EncodeCp_ne_nil c)
    simp only [utf8Encode, List.flatMap_cons, List.length_append,
      List.length_cons]
    simp only [utf8Encode] at ih
    omega

theorem utf8Encode_eq_nil {cps : List Nat} (h : utf8Encode cps = []) :
    cps = [] := by
  cases cps with
  | nil => rfl
  | cons c cs =>
    exfalso
    have := le_length_utf8Encode (c :: cs)
    rw [h] at this
    simp at this

/-- Decoding one code point undoes encoding one code point, for any valid
scalar value and any following bytes. -/
theorem utf8DecodeOne_encode (n : Nat) (hv : n < 1114112) (rest : List Nat) :
    utf8DecodeOne (utf8EncodeCp n ++ rest) = some (n, rest) := by
  unfold utf8EncodeCp
  by_cases h1 : n < 0x80
  · rw [if_pos h1]
    simp only [List.cons_append, List.nil_append, utf8DecodeOne]
    rw [if_pos h1]
  · rw [if_neg h1]
    by_cases h2 : n < 0x800
    · rw [if_pos h2]
      simp only [List.cons_append, List.nil_append, utf8DecodeOne]
      split_ifs <;>
        first
          | (exfalso; omega)
          | (simp only [Option.some.injEq, Prod.mk.injEq, and_true]
             omega)
    · rw [if_neg h2]
      by_cases h3 : n < 0x10000
      · rw [if_pos h3]
        simp only [List.cons_append, List.nil_append, utf8DecodeOne]
        split_ifs <;>
          first
            | (exfalso; omega)
            | (simp only [Option.some.injEq, Prod.mk.injEq, and_true]
               omega)
      · rw [if_neg h3]
        simp only [List.cons_append, List.nil_append, utf8DecodeOne]
        split_ifs <;>
          first
            | (exfalso; omega)
            | (simp only [Option.some.injEq, Prod.mk.injEq, and_true]
               omega)

/-- Decoding undoes encoding for any fuel at least the number of code
points (each code point consumes at least one byte). -/
theorem utf8DecodeAux_encode (cps : List Nat)
    (hv : ∀ n ∈ cps, n < 1114112) :
    ∀ fuel, cps.length ≤ fuel →
      utf8DecodeAux fuel (utf8Encode cps) = some cps := by
  induction cps with
  | nil =>
    intro fuel _
    show utf8DecodeAux fuel [] = some []
    cases fuel <;> rfl
  | cons c cs ih =>
    intro fuel hf
    cases fuel with
    | zero => simp at hf
    | succ f =>
      have hc : c < 1114112 := hv c (by simp)
      have hcs : ∀ n ∈ cs, n < 1114112 := fun n hn => hv n (by simp [hn])
      have henc : utf8Encode (c :: cs) = utf8EncodeCp c ++ utf8Encode cs := by
        simp [utf8Encode]
      obtain ⟨b, bs, hb⟩ : ∃ b bs,
          utf8EncodeCp c ++ utf8Encode cs = b :: bs := by
        cases hcp : utf8EncodeCp c with
        | nil => exact absurd hcp (utf8EncodeCp_ne_nil c)
        | cons x xs => exact ⟨x, xs ++ utf8Encode cs, by simp⟩
      rw [henc, hb]
      show (match utf8DecodeOne (b :: bs) with
        | some (n, rest) => (utf8DecodeAux f rest).map (n :: ·)
        | none => none) = some (c :: cs)
      rw [← hb, utf8DecodeOne_encode c hc]
      show (utf8DecodeAux f (utf8Encode cs)).map (c :: ·) = some (c :: cs)
      rw [ih hcs f (by simpa using Nat.le_of_succ_le_succ hf)]
      rfl

/-- Decoding via `bytes.decode("utf-8")` undoes `str.encode("utf-8")` at the code-point
level. -/
theorem utf8Decode_encode (cps : List Nat) (hv : ∀ n ∈ cps, n < 1114112) :
    utf8Decode (utf8Encode cps) = some cps := by
  unfold utf8Decode
  exact utf8DecodeAux_encode cps hv _ (le_length_utf8Encode cps)

theorem beBytes_four (n : Nat) :
    beBytes 4 n = [n / 16777216 % 256, n / 65536 % 256, n / 256 % 256,
      n % 256] := by
  unfold beBytes
  rw [show List.range 4 = [0, 1, 2, 3] from rfl]
  norm_num

theorem map_ofNat_toNat (l : List Char) :
    (l.map Char.toNat).map Char.ofNat = l := by
  rw [List.map_map]
  have : Char.ofNat ∘ Char.toNat = id := by
    funext c
    exact Char.ofNat_toNat c
  rw [this, List.map_id]

theorem asString_data (s : String) : s.data.asString = s := rfl

end Utf8Lemmas

/-- C8: for every string whose UTF-8 encoding fits the 4-byte signed
length field, decoding the length-prefixed UTF-8 body produced by encoding
it yields the string exactly — with any trailing bytes left unread — and a
length of 0 decodes to the empty string with zero content bytes read after
the length field. -/
theorem length_prefixed_roundtrip (s : String)
    (hlen : (utf8Bytes s).length < 2 ^ 31) :
    (∃ body, encodeBody s = .ok body ∧
      ∀ extra, decodeBody (body ++ extra) = some (s, extra)) ∧
    encodeBody "" = .ok (beBytes 4 0) ∧
    decodeBody (beBytes 4 0) = some ("", []) ∧
    decodeBody (beBytes 4 0 ++ [7]) = some ("", [7]) := by
  have hcps : ∀ n ∈ s.data.map Char.toNat, n < 1114112 := by
    intro n hn
    simp only [List.mem_map] at hn
    obtain ⟨c, _, rfl⟩ := hn
    exact char_toNat_lt c
  have hnn : (0 : ℤ) ≤ ((utf8Bytes s).length : ℤ) := Int.natCast_nonneg _
  have hlz : (((utf8Bytes s).length : ℤ)) < 2 ^ (8 * 4 - 1) := by
    norm_num at hlen ⊢
    omega
  have hpack := packSInt_ok 4 ((utf8Bytes s).length : ℤ)
    (by norm_num at hnn ⊢; omega) hlz
  have hmod : (((((utf8Bytes s).length : ℤ)) % 2 ^ (8 * 4)).toNat) =
      (utf8Bytes s).length := by
    norm_num at hlen ⊢
    omega
  have hbody : encodeBody s =
      .ok (beBytes 4 (utf8Bytes s).length ++ utf8Bytes s) := by
    simp only [encodeBody, hpack, bindOk, hmod]
  have hsv : sVal32 (beBytes 4 (utf8Bytes s).length) =
      ((utf8Bytes s).length : ℤ) := by
    have h1 := (sVal32_roundtrip ((utf8Bytes s).length : ℤ)
      (by norm_num at hnn ⊢; omega) (by norm_num at hlz ⊢; omega)).2
    rw [show ((2 : ℤ) ^ 32) = 2 ^ (8 * 4) from by norm_num, hmod] at h1
    exact h1
  refine ⟨⟨_, hbody, ?_⟩, by decide, by decide, by decide⟩
  intro extra
  rw [beBytes_four]
  simp only [List.cons_append, List.nil_append, List.append_assoc, decodeBody]
  rw [show [(utf8Bytes s).length / 16777216 % 256,
      (utf8Bytes s).length / 65536 % 256, (utf8Bytes s).length / 256 % 256,
      (utf8Bytes s).length % 256] = beBytes 4 (utf8Bytes s).length from
      (beBytes_four _).symm, hsv]
  by_cases hz : (utf8Bytes s).length = 0
  · have hdata : s.data = [] := by
      have hnil : utf8Encode (s.data.map Char.toNat) = [] := by
        have : utf8Bytes s = [] := List.length_eq_zero.mp hz
        simpa [utf8Bytes] using this
      simpa using utf8Encode_eq_nil hnil
    have hsempty : s = "" := by
      cases s with
      | mk data => simp at hdata; rw [hdata]
    rw [if_pos (by exact_mod_cast hz)]
    have hnil : utf8Bytes s = [] := List.length_eq_zero.mp hz
    rw [hsempty] at hnil ⊢
    rw [hnil]
    simp
  · rw [if_neg (by exact_mod_cast hz), if_pos ?side]
    case side =>
      constructor
      · omega
      · rw [Int.toNat_natCast]
        simp only [List.length_append]
        omega
    rw [Int.toNat_natCast]
    have htake : (utf8Bytes s ++ extra).take (utf8Bytes s).length =
        utf8Bytes s := List.take_left _ _
    have hdrop : (utf8Bytes s ++ extra).drop (utf8Bytes s).length =
        extra := List.drop_left _ _
    rw [htake, hdrop]
    have hdec : utf8Decode (utf8Bytes s) = some (s.data.map Char.toNat) :=
      utf8Decode_encode _ hcps
    rw [hdec]
    show some (((s.data.map Char.toNat).map Char.ofNat).asString, extra) =
      some (s, extra)
    rw [map_ofNat_toNat, asString_data]

/-- Witness for C8 at `s = "aé"` (a 1-byte and a 2-byte character). -/
theorem length_prefixed_roundtrip_witness :
    (utf8Bytes "aé").length < 2 ^ 31 ∧
    (∃ body, encodeBody "aé" = .ok body ∧
      ∀ extra, decodeBody (body ++ extra) = some ("aé", extra)) :=
  ⟨by decide, (length_prefixed_roundtrip "aé" (by decide)).1⟩

/-- Witness for C7 at a fresh session and concrete arguments. -/
theorem commands_before_resolution_witness :
    initSession.resolution = none ∧
      touch initSession (-5) 99999 0 (-1) 1 = .error .resolutionUnknown ∧
      isOk (text "a") = true :=
  ⟨rfl,
    (commands_before_resolution initSession rfl (-5) 99999 0 (-1) 1 16 (-16)
      0 0 100 0 10 3 0 1 0 (by decide) (by decide) (by decide) (by decide)
      (by decide) (by decide) (by decide) (by decide) "a" (by decide)).1,
    (commands_before_resolution initSession rfl (-5) 99999 0 (-1) 1 16 (-16)
      0 0 100 0 10 3 0 1 0 (by decide) (by decide) (by decide) (by decide)
      (by decide) (by decide) (by decide) (by decide) "a" (by decide)).2.2.2.2.1⟩

end Scrcpy
